import Mathlib

/-!
Shallow embedding of the `vsc-extension-manager` sources.

The embedding covers:
* the Item model and the Collection Store
  (`ExtensionItem`, `ExtensionTreeProvider` operations) from
  `ExtensionTreeProvider.ts`;
* the CLI resolver (`getCLIPath`) from `extension.ts`;
* the settings merge and the sequential installer workflow
  (`installSelectedCommand`) from `extension.ts`;
* the load-file shape dispatch (`loadFileCommand`) from `extension.ts`.

Mutable collection state is modelled by explicit state passing
(`List ExtensionItem`); the host environment (installed-extension query,
external CLI invocation, cancellation token, settings file) is a record of
oracles (`InstallEnv`).  JSON values parsed by `jsonc.parse` are modelled by
the inductive `JVal`; a materialized JS object is its ordered field list.
-/

namespace ExtMgr

/-- Character-list containment test backing JS `String.prototype.includes`. -/
def listIsInfix (needle : List Char) : List Char → Bool
  | [] => needle.isEmpty
  | c :: rest => needle.isPrefixOf (c :: rest) || listIsInfix needle rest

/-- JS `s.includes(sub)`. -/
def strIncludes (s sub : String) : Bool :=
  listIsInfix sub.data s.data

/-- JS `s.startsWith(pre)`. -/
def strStartsWith (s pre : String) : Bool :=
  pre.data.isPrefixOf s.data

/-- JS `s.toLowerCase()` (ASCII, per-character). -/
def strToLower (s : String) : String :=
  String.mk (s.data.map Char.toLower)

/-- Node `path.parse(f).name` for a bare file name: the name with its final
extension removed; a dot at position 0 (hidden file) does not start an
extension. -/
def pathParseName (f : String) : String :=
  let cs := f.data
  let dotIdxs := (List.range cs.length).filter
    (fun i => decide (0 < i) && (cs.getD i ' ' == '.'))
  match dotIdxs.getLast? with
  | some i => String.mk (cs.take i)
  | none => f

/-- `ExtensionStatus` from `ExtensionTreeProvider.ts`. -/
inductive ExtensionStatus
  | pending
  | installing
  | success
  | failed
  | alreadyInstalled
deriving DecidableEq, Repr

/-- `vscode.TreeItemCheckboxState`. -/
inductive CheckboxState
  | checked
  | unchecked
deriving DecidableEq, Repr, BEq

/-- A parsed JSON value (`jsonc.parse` result).  A materialized JS object is
represented by its ordered field list; JSON objects have unique keys. -/
inductive JVal
  | null
  | bool (b : Bool)
  | num (n : Int)
  | str (s : String)
  | arr (elems : List JVal)
  | obj (fields : List (String × JVal))

/-- `ExtensionData` from `ExtensionTreeProvider.ts`. -/
structure ExtensionData where
  id : String
  displayName : Option String := none
  description : Option String := none
  version : Option String := none
  publisher : Option String := none
deriving DecidableEq, Repr

/-- `ExtensionItem` from `ExtensionTreeProvider.ts`: the fields of the data
model (display-only derived fields such as tooltip and icon are UI plumbing
and are not represented). -/
structure ExtensionItem where
  extensionData : ExtensionData
  id : String
  status : ExtensionStatus
  errorMessage : Option String
  selected : Bool
  settingsData : Option (List (String × JVal))
  checkboxState : CheckboxState

/-- `ExtensionItem.updateCheckbox`. -/
def ExtensionItem.updateCheckbox (it : ExtensionItem) : ExtensionItem :=
  { it with checkboxState :=
      if it.selected then CheckboxState.checked else CheckboxState.unchecked }

/-- The `ExtensionItem` constructor: field initializers
(`status = Pending`, `selected = true`, `id = extensionData.id`) followed by
the constructor's `updateCheckbox()` call. -/
def ExtensionItem.create (data : ExtensionData)
    (settingsData : Option (List (String × JVal))) : ExtensionItem :=
  ExtensionItem.updateCheckbox
    { extensionData := data
      id := data.id
      status := ExtensionStatus.pending
      errorMessage := none
      selected := true
      settingsData := settingsData
      checkboxState := CheckboxState.unchecked }

/-- `ExtensionTreeProvider.loadExtensions`: replaces the whole collection,
ignoring the previous contents. -/
def loadExtensions (_prev : List ExtensionItem)
    (extensionDataList : List ExtensionData) : List ExtensionItem :=
  extensionDataList.map (fun data => ExtensionItem.create data none)

/-- The fixed descriptive fields of the synthetic settings item built inside
`addSettingsItem`. -/
def settingsDescriptor : ExtensionData :=
  { id := "settings"
    displayName := some "VS Code Settings"
    description := some "User settings.json configuration"
    publisher := some "User"
    version := some "Current" }

/-- `ExtensionTreeProvider.addSettingsItem`: remove any existing settings
item, then unshift a fresh one. -/
def addSettingsItem (coll : List ExtensionItem)
    (settingsData : List (String × JVal)) : List ExtensionItem :=
  ExtensionItem.create settingsDescriptor (some settingsData) ::
    coll.filter (fun e => e.id != "settings")

/-- `ExtensionTreeProvider.getSelectedExtensions`. -/
def getSelectedExtensions (coll : List ExtensionItem) : List ExtensionItem :=
  coll.filter (fun ext => ext.selected)

/-- `ExtensionTreeProvider.selectAll`. -/
def selectAll (coll : List ExtensionItem) : List ExtensionItem :=
  coll.map (fun ext => ExtensionItem.updateCheckbox { ext with selected := true })

/-- `ExtensionTreeProvider.deselectAll`. -/
def deselectAll (coll : List ExtensionItem) : List ExtensionItem :=
  coll.map (fun ext => ExtensionItem.updateCheckbox { ext with selected := false })

/-- `ExtensionTreeProvider.updateExtensionStatus`: mutate the first item
found by id, if any (`find` + in-place field writes). -/
def updateExtensionStatus (coll : List ExtensionItem) (id : String)
    (status : ExtensionStatus) (errorMessage : Option String) :
    List ExtensionItem :=
  match coll with
  | [] => []
  | e :: rest =>
    if e.id == id then
      { e with status := status, errorMessage := errorMessage } :: rest
    else
      e :: updateExtensionStatus rest id status errorMessage

/-- In-place mutation of the item at one position (the tree hands
`handleCheckboxChange` a reference to the item; positions identify items in
the pure model). -/
def modifyAt : List ExtensionItem → Nat → (ExtensionItem → ExtensionItem) →
    List ExtensionItem
  | [], _, _ => []
  | e :: rest, 0, f => f e :: rest
  | e :: rest, n + 1, f => e :: modifyAt rest n f

/-- `ExtensionTreeProvider.handleCheckboxChange`. -/
def handleCheckboxChange (coll : List ExtensionItem) (i : Nat)
    (state : CheckboxState) : List ExtensionItem :=
  modifyAt coll i (fun item =>
    ExtensionItem.updateCheckbox
      { item with selected := state == CheckboxState.checked })

/-- `getCLIPath` from `extension.ts`, as the resolver unit of spec section
4.3: the directory listing, the host display name, and the configured
`extensionManager.cliCommand` value are parameters.  The source wraps the
selected candidate as the quoted path `"${path.join(binDir, bestMatch)}"`;
the resolver is modelled at the candidate-name level. -/
def getCLIPath (files : List String) (appName : String)
    (cliCommandCfg : Option String) : String :=
  let cliCommand :=
    match cliCommandCfg with
    | some s => if s == "" then "auto" else s
    | none => "auto"
  if cliCommand == "auto" then
    let candidates := files.filter
      (fun f => !(strStartsWith f ".") && !(strIncludes f "tunnel"))
    match candidates with
    | [] => cliCommand
    | c0 :: cs =>
      let found := (c0 :: cs).find?
        (fun f => strIncludes (strToLower appName) (strToLower (pathParseName f)))
      let bestMatch :=
        match found with
        | some m => m
        | none =>
          match (c0 :: cs).find? (fun f =>
              let n := strToLower (pathParseName f)
              n == "code" || n == "cursor" || n == "codium") with
          | some c => c
          | none => c0
      if bestMatch == "" then cliCommand else bestMatch
  else cliCommand

/-- Modelled from the spec: the CLI Resolver algorithm of section 4.3 stated
in the spec's own words (drop hidden and tunnel names; prefer a base-name
substring match on the host name; else a known editor name; else the first
remaining candidate; with no candidates, the override unchanged), written as
a second definition to be compared with the source's `getCLIPath`. -/
def cliResolverSpec (files : List String) (hostName : String)
    (override : String) : String :=
  let remaining := files.filter
    (fun f => !(strStartsWith f ".") && !(strIncludes f "tunnel"))
  match remaining with
  | [] => override
  | c0 :: cs =>
    match (c0 :: cs).find?
        (fun f => strIncludes (strToLower hostName) (strToLower (pathParseName f))) with
    | some m => m
    | none =>
      match (c0 :: cs).find? (fun f =>
          let n := strToLower (pathParseName f)
          n == "code" || n == "cursor" || n == "codium") with
      | some c => c
      | none => c0

/-- Field lookup in a materialized JS object (JSON objects have unique
keys, so first match and JS property access agree). -/
def jsLookup (fields : List (String × JVal)) (key : String) : Option JVal :=
  (fields.find? (fun kv => kv.1 == key)).map (fun kv => kv.2)

/-- The per-field override applied to the first spread operand: a field of
`a` keeps its key and takes `b`'s value for that key when `b` has one. -/
def spreadMapFn (b : List (String × JVal)) (kv : String × JVal) :
    String × JVal :=
  match jsLookup b kv.1 with
  | some v => (kv.1, v)
  | none => kv

/-- JS object spread `{...a, ...b}`: keys of `a` in order, values
overridden by `b` where present, followed by the keys only in `b`. -/
def objectSpread (a b : List (String × JVal)) : List (String × JVal) :=
  a.map (spreadMapFn b) ++ b.filter (fun kv => (jsLookup a kv.1).isNone)

/-- Result of the external `--install-extension` process
(`installExtension` resolves with `{success, error?}`). -/
inductive InstallResult
  | ok
  | err (msg : String)

/-- The host environment consumed by `installSelectedCommand`: the
already-installed query (`vscode.extensions.getExtension`), the external
install operation, the cancellation token sampled at the i-th loop check,
and the settings file (existence, tolerant-parse result, write outcome:
`none` means the write succeeds, `some msg` an exception with that
message). -/
structure InstallEnv where
  isInstalled : String → Bool
  install : String → InstallResult
  cancelled : Nat → Bool
  settingsFileExists : Bool
  parseCurrent : Option (List (String × JVal))
  writeResult : Option String

/-- The observable state of one `installSelectedCommand` run: the collection
(mutated through `updateExtensionStatus`), the two internal counters, the
ids passed to the external install operation, the number of cancellation
checks, the settings content written to disk, the output-channel log, and
the final information message. -/
structure RunState where
  coll : List ExtensionItem
  installedCount : Nat := 0
  errorCount : Nat := 0
  installCalls : List String := []
  cancelChecks : Nat := 0
  written : Option (List (String × JVal)) := none
  log : List String := []
  summary : Option String := none

/-- Step 1 of `installSelectedCommand`: apply the settings item, if one is
selected and carries a payload.  A read/parse failure of the current
settings degrades to an empty current-settings object (inner try/catch);
a write failure marks the settings item Failed (outer try/catch). -/
def settingsPhase (env : InstallEnv) (settingsItem : Option ExtensionItem)
    (st : RunState) : RunState :=
  match settingsItem with
  | none => st
  | some item =>
    match item.settingsData with
    | none => st
    | some payload =>
      let readResult : List (String × JVal) × List String :=
        if env.settingsFileExists then
          match env.parseCurrent with
          | some s => (s, [])
          | none => ([], ["Warning: Could not parse current settings.json"])
        else ([], [])
      let newSettings := objectSpread readResult.1 payload
      match env.writeResult with
      | none =>
        { st with
          written := some newSettings
          coll := updateExtensionStatus st.coll "settings"
            ExtensionStatus.success none
          log := st.log ++ readResult.2 ++ ["Successfully applied settings."] }
      | some msg =>
        { st with
          coll := updateExtensionStatus st.coll "settings"
            ExtensionStatus.failed (some msg)
          log := st.log ++ readResult.2 ++ ["Failed to apply settings: " ++ msg] }

/-- One iteration body of the extension phase (after the cancellation
check): skip already-installed items, otherwise mark Installing, invoke the
external operation, and mark Success or Failed with the reported error. -/
def installStep (env : InstallEnv) (st : RunState) (ext : ExtensionItem) :
    RunState :=
  let extensionId := ext.extensionData.id
  if env.isInstalled extensionId then
    { st with
      coll := updateExtensionStatus st.coll extensionId
        ExtensionStatus.alreadyInstalled none }
  else
    let st1 : RunState :=
      { st with
        coll := updateExtensionStatus st.coll extensionId
          ExtensionStatus.installing none
        log := st.log ++ ["Installing " ++ extensionId ++ "..."]
        installCalls := st.installCalls ++ [extensionId] }
    match env.install extensionId with
    | InstallResult.ok =>
      { st1 with
        coll := updateExtensionStatus st1.coll extensionId
          ExtensionStatus.success none
        installedCount := st1.installedCount + 1
        log := st1.log ++ ["Successfully installed " ++ extensionId] }
    | InstallResult.err msg =>
      { st1 with
        coll := updateExtensionStatus st1.coll extensionId
          ExtensionStatus.failed (some msg)
        errorCount := st1.errorCount + 1
        log := st1.log ++ ["Failed to install " ++ extensionId] }

/-- The extension-phase loop: one cancellation check at the top of each
iteration; on cancellation, log and break. -/
def installLoop (env : InstallEnv) :
    List ExtensionItem → Nat → RunState → RunState
  | [], _, st => st
  | ext :: rest, i, st =>
    let st0 : RunState := { st with cancelChecks := st.cancelChecks + 1 }
    if env.cancelled i then
      { st0 with log := st0.log ++ ["Operation cancelled."] }
    else
      installLoop env rest (i + 1) (installStep env st0 ext)

/-- The final information message of `installSelectedCommand`
(lines 307-311 of `extension.ts`), verbatim. -/
def summaryMessage (installedCount : Nat) (settingsSelected : Bool) : String :=
  "Process complete. Installed: " ++ toString installedCount ++
    " extensions. Settings applied: " ++
    (if settingsSelected then "Yes" else "No") ++ "."

/-- The `installSelected` command: select, split off the settings item, run
the settings phase then the extension loop, and emit the final message. -/
def installSelectedCommand (env : InstallEnv) (coll : List ExtensionItem) :
    RunState :=
  let selected := getSelectedExtensions coll
  if selected.isEmpty then
    { coll := coll, log := ["No items selected."] }
  else
    let settingsItem := selected.find? (fun item => item.id == "settings")
    let extensionItems := selected.filter (fun item => item.id != "settings")
    let st0 : RunState := { coll := coll, log := ["Starting installation..."] }
    let st1 := settingsPhase env settingsItem st0
    let st2 := installLoop env extensionItems 0 st1
    { st2 with
      summary := some (summaryMessage st2.installedCount settingsItem.isSome) }

/-- The terminal status one processed extension item receives, as a function
of the environment. -/
def stepStatus (env : InstallEnv) (id : String) : ExtensionStatus :=
  if env.isInstalled id then ExtensionStatus.alreadyInstalled
  else
    match env.install id with
    | InstallResult.ok => ExtensionStatus.success
    | InstallResult.err _ => ExtensionStatus.failed

/-- The error message one processed extension item ends up with. -/
def stepErrMsg (env : InstallEnv) (id : String) : Option String :=
  if env.isInstalled id then none
  else
    match env.install id with
    | InstallResult.ok => none
    | InstallResult.err msg => some msg

/-- A status is terminal when it is one of the three end states of a single
install attempt. -/
def isTerminal (s : ExtensionStatus) : Prop :=
  s = ExtensionStatus.success ∨ s = ExtensionStatus.failed ∨
    s = ExtensionStatus.alreadyInstalled

/-- JS truthiness of a possibly-missing value (`none` plays `undefined`). -/
def jsTruthy : Option JVal → Bool
  | none => false
  | some JVal.null => false
  | some (JVal.bool b) => b
  | some (JVal.num n) => n != 0
  | some (JVal.str s) => s != ""
  | some (JVal.arr _) => true
  | some (JVal.obj _) => true

/-- JS `x || dflt`. -/
def jsOr (v : Option JVal) (dflt : JVal) : JVal :=
  match v with
  | some x => if jsTruthy (some x) then x else dflt
  | none => dflt

/-- The own enumerable fields a value contributes under object spread
(objects spread to their fields, other primitives to nothing; string index
properties are not used by this code and are not represented). -/
def spreadableFields : Option JVal → List (String × JVal)
  | some (JVal.obj fields) => fields
  | _ => []

/-- Reading one optional string-valued field of a dynamic descriptor at the
typed boundary. -/
def jsStrField (v : JVal) (key : String) : Option String :=
  match v with
  | JVal.obj fields =>
    match jsLookup fields key with
    | some (JVal.str s) => some s
    | _ => none
  | _ => none

/-- The typed reading of one dynamic extension descriptor (the source casts
the parsed array to `ExtensionData[]` without validation; a missing or
non-string `id` — `undefined` in the source — is rendered as `""`). -/
def jvalToExtData (v : JVal) : ExtensionData :=
  { id := (jsStrField v "id").getD ""
    displayName := jsStrField v "displayName"
    description := jsStrField v "description"
    version := jsStrField v "version"
    publisher := jsStrField v "publisher" }

/-- The shape dispatch of `loadFileCommand` (lines 144-172 of
`extension.ts`): `Array.isArray(data) ? data : data.extensions || []`, the
`!Array.isArray(extensions)` format-error throw, and the truthiness test on
`data.settings`.  Reading `.extensions` of `null` throws a `TypeError`,
caught by the same handler. -/
def loadFileParse (data : JVal) :
    Except String (List JVal × Option (List (String × JVal))) :=
  match data with
  | JVal.arr xs => Except.ok (xs, none)
  | JVal.null => Except.error "TypeError"
  | JVal.obj fields =>
    let extVal := jsOr (jsLookup fields "extensions") (JVal.arr [])
    match extVal with
    | JVal.arr xs =>
      let settingsVal := jsLookup fields "settings"
      Except.ok (xs,
        if jsTruthy settingsVal then some (spreadableFields settingsVal)
        else none)
    | _ => Except.error "Invalid extensions file format"
  | _ => Except.ok ([], none)

/-- The `loadFile` command acting on the collection: on a parse/shape error
the catch block surfaces the message and the collection is untouched;
otherwise the collection is replaced via `loadExtensions` and, when
`data.settings` is truthy, `addSettingsItem` runs. -/
def loadFileCommand (coll : List ExtensionItem) (data : JVal) :
    List ExtensionItem × String :=
  match loadFileParse data with
  | Except.error e => (coll, "Error loading file: " ++ e)
  | Except.ok (exts, settingsFields) =>
    let coll1 := loadExtensions coll (exts.map jvalToExtData)
    let coll2 :=
      match settingsFields with
      | some fields => addSettingsItem coll1 fields
      | none => coll1
    (coll2,
      "Loaded " ++ toString exts.length ++ " extensions" ++
        (if settingsFields.isSome then " and settings" else "") ++ ".")

/-- Collection states reachable through the provider's public operations. -/
inductive Reachable : List ExtensionItem → Prop
  | empty : Reachable []
  | load (st : List ExtensionItem) (datas : List ExtensionData) :
      Reachable st → Reachable (loadExtensions st datas)
  | settings (st : List ExtensionItem) (payload : List (String × JVal)) :
      Reachable st → Reachable (addSettingsItem st payload)
  | selAll (st : List ExtensionItem) :
      Reachable st → Reachable (selectAll st)
  | deselAll (st : List ExtensionItem) :
      Reachable st → Reachable (deselectAll st)
  | checkbox (st : List ExtensionItem) (i : Nat) (state : CheckboxState) :
      Reachable st → Reachable (handleCheckboxChange st i state)
  | status (st : List ExtensionItem) (id : String) (s : ExtensionStatus)
      (m : Option String) :
      Reachable st → Reachable (updateExtensionStatus st id s m)

/-- Collection states reachable when every raw descriptor handed to
`loadExtensions` stays clear of the reserved settings identifier. -/
inductive ReachableNoRes : List ExtensionItem → Prop
  | empty : ReachableNoRes []
  | load (st : List ExtensionItem) (datas : List ExtensionData) :
      (∀ d ∈ datas, d.id ≠ "settings") →
      ReachableNoRes st → ReachableNoRes (loadExtensions st datas)
  | settings (st : List ExtensionItem) (payload : List (String × JVal)) :
      ReachableNoRes st → ReachableNoRes (addSettingsItem st payload)
  | selAll (st : List ExtensionItem) :
      ReachableNoRes st → ReachableNoRes (selectAll st)
  | deselAll (st : List ExtensionItem) :
      ReachableNoRes st → ReachableNoRes (deselectAll st)
  | checkbox (st : List ExtensionItem) (i : Nat) (state : CheckboxState) :
      ReachableNoRes st → ReachableNoRes (handleCheckboxChange st i state)
  | status (st : List ExtensionItem) (id : String) (s : ExtensionStatus)
      (m : Option String) :
      ReachableNoRes st → ReachableNoRes (updateExtensionStatus st id s m)

/-- The settings-placement invariant: any item carrying the reserved id sits
at index 0 (hence there is at most one such item). -/
def SettingsInvariant (st : List ExtensionItem) : Prop :=
  ∀ i, (st.map (fun e => e.id)).get? i = some "settings" → i = 0

/-- The checkbox-consistency invariant: every item shows Checked exactly
when its selection flag is set. -/
def CheckboxInvariant (st : List ExtensionItem) : Prop :=
  ∀ e ∈ st, e.checkboxState = CheckboxState.checked ↔ e.selected = true

/-- The extension-phase loop with the cancellation checks counted but never
taken: used to characterize `installLoop` before a cancellation point and
under an unraised token. -/
def foldSteps (env : InstallEnv) : Nat → RunState → List ExtensionItem →
    RunState
  | _, st, [] => st
  | j, st, e :: rest =>
    foldSteps env (j + 1)
      (installStep env { st with cancelChecks := st.cancelChecks + 1 } e) rest

/-- The cumulative effect of the processed items on the collection: one
terminal status update per processed item. -/
def applyEnvUpdates (env : InstallEnv) (coll : List ExtensionItem) :
    List ExtensionItem → List ExtensionItem
  | [] => coll
  | e :: rest =>
    applyEnvUpdates env
      (updateExtensionStatus coll e.extensionData.id
        (stepStatus env e.extensionData.id) (stepErrMsg env e.extensionData.id))
      rest

/-- Sample extension descriptors for the concrete runs. -/
def exData1 : ExtensionData := { id := "pub.ext1" }

/-- Second sample descriptor. -/
def exData2 : ExtensionData := { id := "pub.ext2" }

/-- Third sample descriptor. -/
def exData3 : ExtensionData := { id := "pub.ext3" }

/-- Fourth sample descriptor. -/
def exData4 : ExtensionData := { id := "pub.ext4" }

/-- Fifth sample descriptor. -/
def exData5 : ExtensionData := { id := "pub.ext5" }

/-- Environment of the concrete three-item run: the host reports the second
item as already installed, the external operation succeeds for the first
and fails for the third, cancellation is never requested, no settings. -/
def runEnvC1 : InstallEnv :=
  { isInstalled := fun id => id == "pub.ext2"
    install := fun id =>
      if id == "pub.ext1" then InstallResult.ok
      else InstallResult.err "spawn failed"
    cancelled := fun _ => false
    settingsFileExists := false
    parseCurrent := none
    writeResult := none }

/-- The concrete three-item run. -/
def runC1 : RunState :=
  installSelectedCommand runEnvC1 (loadExtensions [] [exData1, exData2, exData3])

/-- Environment of the concrete five-item cancellation run: every install
succeeds, cancellation is requested from the third check on. -/
def runEnvC2 : InstallEnv :=
  { isInstalled := fun _ => false
    install := fun _ => InstallResult.ok
    cancelled := fun i => decide (2 ≤ i)
    settingsFileExists := false
    parseCurrent := none
    writeResult := none }

/-- The concrete five-item run cancelled before its third step. -/
def runC2 : RunState :=
  installSelectedCommand runEnvC2
    (loadExtensions [] [exData1, exData2, exData3, exData4, exData5])

/-- Environment in which the current settings file exists but fails to
parse, and the write succeeds. -/
def envParseFail : InstallEnv :=
  { isInstalled := fun _ => false
    install := fun _ => InstallResult.ok
    cancelled := fun _ => false
    settingsFileExists := true
    parseCurrent := none
    writeResult := none }

/-- Environment in which the settings write fails and the first sample
extension's install fails. -/
def envWriteFail : InstallEnv :=
  { isInstalled := fun _ => false
    install := fun id =>
      if id == "pub.ext1" then InstallResult.err "boom" else InstallResult.ok
    cancelled := fun _ => false
    settingsFileExists := false
    parseCurrent := none
    writeResult := some "EACCES" }

/-- A descriptor that clashes with the reserved settings identifier. -/
def settingsClash : ExtensionData := { id := "settings" }

/-- A collection loaded from descriptors carrying the reserved id twice. -/
def badColl : List ExtensionItem :=
  loadExtensions [] [settingsClash, settingsClash]

/-- A nonempty prior collection for the load-file scenarios. -/
def priorColl : List ExtensionItem := loadExtensions [] [exData1]

/-! ### Lemmas about `updateExtensionStatus` -/

theorem upd_length (coll : List ExtensionItem) (id : String)
    (s : ExtensionStatus) (m : Option String) :
    (updateExtensionStatus coll id s m).length = coll.length := by
  induction coll with
  | nil => rfl
  | cons e rest ih =>
    simp only [updateExtensionStatus]
    split
    · simp
    · simp [ih]

theorem upd_map_id (coll : List ExtensionItem) (id : String)
    (s : ExtensionStatus) (m : Option String) :
    (updateExtensionStatus coll id s m).map (fun e => e.id) =
      coll.map (fun e => e.id) := by
  induction coll with
  | nil => rfl
  | cons e rest ih =>
    simp only [updateExtensionStatus]
    split
    · simp
    · simp [ih]

theorem upd_eq_of_forall_ne (coll : List ExtensionItem) (id : String)
    (s : ExtensionStatus) (m : Option String)
    (h : ∀ e ∈ coll, e.id ≠ id) :
    updateExtensionStatus coll id s m = coll := by
  induction coll with
  | nil => rfl
  | cons e rest ih =>
    have he : ¬((e.id == id) = true) := by
      simpa using h e (List.mem_cons_self e rest)
    simp only [updateExtensionStatus, if_neg he]
    exact congrArg (e :: ·) (ih fun x hx => h x (List.mem_cons_of_mem _ hx))

theorem upd_get?_cases (coll : List ExtensionItem) (id : String)
    (s : ExtensionStatus) (m : Option String) (i : Nat) (x : ExtensionItem)
    (hx : coll.get? i = some x) :
    (updateExtensionStatus coll id s m).get? i = some x ∨
    (x.id = id ∧ (updateExtensionStatus coll id s m).get? i =
      some { x with status := s, errorMessage := m }) := by
  induction coll generalizing i with
  | nil => simp at hx
  | cons e rest ih =>
    by_cases he : (e.id == id) = true
    · simp only [updateExtensionStatus, if_pos he]
      cases i with
      | zero =>
        simp only [List.get?_cons_zero, Option.some_inj] at hx
        subst hx
        exact Or.inr ⟨by simpa using he, rfl⟩
      | succ n =>
        simp only [List.get?_cons_succ] at hx ⊢
        exact Or.inl hx
    · simp only [updateExtensionStatus, if_neg he]
      cases i with
      | zero =>
        simp only [List.get?_cons_zero, Option.some_inj] at hx
        subst hx
        exact Or.inl rfl
      | succ n =>
        simp only [List.get?_cons_succ] at hx ⊢
        exact ih n hx

theorem upd_get?_ne (coll : List ExtensionItem) (id : String)
    (s : ExtensionStatus) (m : Option String) (i : Nat) (x : ExtensionItem)
    (hx : coll.get? i = some x) (hne : x.id ≠ id) :
    (updateExtensionStatus coll id s m).get? i = some x := by
  rcases upd_get?_cases coll id s m i x hx with h | ⟨h1, _⟩
  · exact h
  · exact absurd h1 hne

theorem upd_get?_eq (coll : List ExtensionItem) (id : String)
    (s : ExtensionStatus) (m : Option String) (i : Nat) (x : ExtensionItem)
    (hnd : (coll.map (fun e => e.id)).Nodup)
    (hx : coll.get? i = some x) (hid : x.id = id) :
    (updateExtensionStatus coll id s m).get? i =
      some { x with status := s, errorMessage := m } := by
  induction coll generalizing i with
  | nil => simp at hx
  | cons e rest ih =>
    simp only [List.map_cons, List.nodup_cons] at hnd
    obtain ⟨hnotin, hnd'⟩ := hnd
    cases i with
    | zero =>
      simp only [List.get?_cons_zero, Option.some_inj] at hx
      subst hx
      simp only [updateExtensionStatus, if_pos (beq_iff_eq.mpr hid)]
      rfl
    | succ n =>
      simp only [List.get?_cons_succ] at hx
      have hxmem : x.id ∈ rest.map (fun e => e.id) :=
        List.mem_map_of_mem _ (List.get?_mem hx)
      have hene : ¬((e.id == id) = true) := by
        simp only [beq_iff_eq]
        intro h
        exact hnotin (h ▸ hid ▸ hxmem)
      simp only [updateExtensionStatus, if_neg hene, List.get?_cons_succ]
      exact ih n hnd' hx

theorem upd_upd (coll : List ExtensionItem) (id : String)
    (s1 s2 : ExtensionStatus) (m1 m2 : Option String) :
    updateExtensionStatus (updateExtensionStatus coll id s1 m1) id s2 m2 =
      updateExtensionStatus coll id s2 m2 := by
  induction coll with
  | nil => rfl
  | cons e rest ih =>
    by_cases he : (e.id == id) = true
    · simp only [updateExtensionStatus, if_pos he]
    · simp only [updateExtensionStatus, if_neg he, ih]

theorem upd_mem_cases (coll : List ExtensionItem) (id : String)
    (s : ExtensionStatus) (m : Option String) (x : ExtensionItem)
    (hx : x ∈ updateExtensionStatus coll id s m) :
    x ∈ coll ∨ ∃ e ∈ coll, x = { e with status := s, errorMessage := m } := by
  induction coll with
  | nil => simp [updateExtensionStatus] at hx
  | cons e rest ih =>
    by_cases he : (e.id == id) = true
    · simp only [updateExtensionStatus, if_pos he, List.mem_cons] at hx
      rcases hx with h | h
      · exact Or.inr ⟨e, List.mem_cons_self e rest, h⟩
      · exact Or.inl (List.mem_cons_of_mem _ h)
    · simp only [updateExtensionStatus, if_neg he, List.mem_cons] at hx
      rcases hx with h | h
      · exact Or.inl (h ▸ List.mem_cons_self e rest)
      · rcases ih h with h' | ⟨y, hy, hxy⟩
        · exact Or.inl (List.mem_cons_of_mem _ h')
        · exact Or.inr ⟨y, List.mem_cons_of_mem _ hy, hxy⟩

/-! ### Claim C6 -/

/-- Claim C6: `loadExtensions` replaces the whole collection with exactly
one fresh item per raw descriptor, in input order, each `selected = true`
and `status = Pending`, regardless of the prior contents. -/
theorem c6_load_extensions (prior : List ExtensionItem)
    (datas : List ExtensionData) :
    (loadExtensions prior datas).length = datas.length ∧
    (∀ i, (loadExtensions prior datas).get? i =
      (datas.get? i).map (fun d => ExtensionItem.create d none)) ∧
    (∀ d s, (ExtensionItem.create d s).selected = true ∧
      (ExtensionItem.create d s).status = ExtensionStatus.pending ∧
      (ExtensionItem.create d s).extensionData = d ∧
      (ExtensionItem.create d s).id = d.id ∧
      (ExtensionItem.create d s).errorMessage = none ∧
      (ExtensionItem.create d s).settingsData = s) := by
  refine ⟨by simp [loadExtensions], fun i => ?_, fun d s => ?_⟩
  · simp [loadExtensions]
  · exact ⟨rfl, rfl, rfl, rfl, rfl, rfl⟩

/-! ### Claim C9 -/

/-- Claim C9: `updateExtensionStatus` with an id matching no item is a
no-op; the length is always preserved, and per position every item is
either returned unchanged or — when it carries the requested id — changed
exactly in its `status` and `errorMessage` fields. -/
theorem c9_set_status_frame (coll : List ExtensionItem) (id : String)
    (s : ExtensionStatus) (m : Option String) :
    ((∀ e ∈ coll, e.id ≠ id) → updateExtensionStatus coll id s m = coll) ∧
    (updateExtensionStatus coll id s m).length = coll.length ∧
    (∀ i x, coll.get? i = some x →
      (updateExtensionStatus coll id s m).get? i = some x ∨
      (x.id = id ∧ (updateExtensionStatus coll id s m).get? i =
        some { x with status := s, errorMessage := m })) :=
  ⟨upd_eq_of_forall_ne coll id s m, upd_length coll id s m,
    upd_get?_cases coll id s m⟩

/-- Witness for claim C9: a concrete collection, an id matching nothing,
and the resulting no-op. -/
theorem c9_set_status_frame_witness :
    updateExtensionStatus priorColl "other.id" ExtensionStatus.success none =
      priorColl := by
  refine (c9_set_status_frame priorColl "other.id"
    ExtensionStatus.success none).1 ?_
  intro e he
  simp only [priorColl, loadExtensions, List.map_cons, List.map_nil,
    List.mem_singleton] at he
  subst he
  decide

/-! ### Claim C3 -/

/-- Claim C3: the CLI resolver follows the spec's algorithm (compared
against `cliResolverSpec`, the algorithm restated from the spec's words),
and in particular returns `"cursor"` for the documented Cursor example,
`"code.cmd"` for the single-candidate example, and the configured override
unchanged on an empty listing.  Determinism is immediate: `getCLIPath` is a
function of the listing, the host name and the override. -/
theorem c3_cli_resolver :
    getCLIPath ["code", "code-tunnel", ".hidden", "cursor"] "Cursor"
      (some "auto") = "cursor" ∧
    getCLIPath ["code.cmd"] "Foo" (some "auto") = "code.cmd" ∧
    (∀ appName override, override ≠ "" →
      getCLIPath [] appName (some override) = override) ∧
    (∀ files appName, "" ∉ files →
      getCLIPath files appName (some "auto") =
        cliResolverSpec files appName "auto") := by
  refine ⟨by decide, by decide, ?_, ?_⟩
  · intro appName o ho
    have h1 : (o == "") = false := beq_eq_false_iff_ne.mpr ho
    simp only [getCLIPath, h1, Bool.false_eq_true, if_false, List.filter_nil]
    split <;> rfl
  · intro files appName hnem
    have hmem : ∀ x ∈ files.filter
        (fun f => !(strStartsWith f ".") && !(strIncludes f "tunnel")),
        (x == "") = false := by
      intro x hx
      refine beq_eq_false_iff_ne.mpr fun h => hnem ?_
      exact h ▸ List.mem_of_mem_filter hx
    simp only [getCLIPath, cliResolverSpec]
    cases hcand : files.filter
        (fun f => !(strStartsWith f ".") && !(strIncludes f "tunnel")) with
    | nil => rfl
    | cons c0 cs =>
      rw [hcand] at hmem
      cases hf : (c0 :: cs).find?
          (fun f => strIncludes (strToLower appName)
            (strToLower (pathParseName f))) with
      | some m =>
        simp [hf, hmem m (List.mem_of_find?_eq_some hf)]
      | none =>
        cases hk : (c0 :: cs).find? (fun f =>
            let n := strToLower (pathParseName f)
            n == "code" || n == "cursor" || n == "codium") with
        | some c =>
          simp [hf, hk, hmem c (List.mem_of_find?_eq_some hk)]
        | none =>
          simp [hf, hk, hmem c0 (List.mem_cons_self c0 cs)]

/-- Witness for claim C3: the empty-listing conjunct applied at a concrete
override. -/
theorem c3_cli_resolver_witness :
    getCLIPath [] "Visual Studio Code" (some "codium") = "codium" :=
  c3_cli_resolver.2.2.1 "Visual Studio Code" "codium" (by decide)

/-! ### Claim C4 -/

theorem find?_filter_of_imp {α : Type} (l : List α) (p g : α → Bool)
    (h : ∀ x, p x = true → g x = true) :
    (l.filter g).find? p = l.find? p := by
  induction l with
  | nil => rfl
  | cons x rest ih =>
    by_cases hg : g x = true
    · rw [List.filter_cons_of_pos hg]
      by_cases hp : p x = true
      · rw [List.find?_cons_of_pos _ hp, List.find?_cons_of_pos _ hp]
      · rw [List.find?_cons_of_neg _ hp, List.find?_cons_of_neg _ hp, ih]
    · rw [List.filter_cons_of_neg (by simpa using hg)]
      have hp : ¬p x = true := fun hpx => hg (h x hpx)
      rw [List.find?_cons_of_neg _ hp, ih]

theorem option_map_or {α β : Type} (f : α → β) (x y : Option α) :
    (x.or y).map f = (x.map f).or (y.map f) := by
  cases x <;> rfl

theorem jsLookup_append (xs ys : List (String × JVal)) (k : String) :
    jsLookup (xs ++ ys) k = (jsLookup xs k).or (jsLookup ys k) := by
  show ((xs ++ ys).find? _).map _ = _
  rw [List.find?_append, option_map_or]
  rfl

theorem spreadMapFn_key (b : List (String × JVal)) (kv : String × JVal) :
    (spreadMapFn b kv).1 = kv.1 := by
  unfold spreadMapFn
  cases jsLookup b kv.1 <;> rfl

theorem jsLookup_spread_map (a b : List (String × JVal)) (k : String) :
    jsLookup (a.map (spreadMapFn b)) k =
      (a.find? (fun kv => kv.1 == k)).map (fun kv => (spreadMapFn b kv).2) := by
  show ((a.map (spreadMapFn b)).find? _).map _ = _
  rw [List.find?_map]
  have hcomp : ((fun kv : String × JVal => kv.1 == k) ∘ spreadMapFn b) =
      fun kv : String × JVal => kv.1 == k := by
    funext kv
    simp only [Function.comp]
    rw [spreadMapFn_key]
  rw [hcomp, Option.map_map]
  rfl

theorem spread_lookup (a b : List (String × JVal)) (k : String) :
    jsLookup (objectSpread a b) k = (jsLookup b k).or (jsLookup a k) := by
  unfold objectSpread
  rw [jsLookup_append, jsLookup_spread_map]
  cases ha : a.find? (fun kv => kv.1 == k) with
  | none =>
    have hjla : jsLookup a k = none := by
      show (a.find? _).map _ = none
      rw [ha]
      rfl
    have hfilter : (b.filter
        (fun kv => (jsLookup a kv.1).isNone)).find?
          (fun kv => kv.1 == k) = b.find? (fun kv => kv.1 == k) := by
      refine find?_filter_of_imp b _ _ fun kv hkv => ?_
      have hk : kv.1 = k := beq_iff_eq.mp hkv
      rw [hk, hjla]
      rfl
    have hjlf : jsLookup (b.filter (fun kv => (jsLookup a kv.1).isNone)) k =
        jsLookup b k := by
      show ((b.filter _).find? _).map _ = _
      rw [hfilter]
      rfl
    rw [hjlf, hjla]
    cases jsLookup b k <;> rfl
  | some kv0 =>
    have hp := List.find?_some ha
    have hk0 : kv0.1 = k := by simpa using hp
    have hjla : jsLookup a k = some kv0.2 := by
      show (a.find? _).map _ = _
      rw [ha]
      rfl
    rw [hjla]
    cases hb : b.find? (fun kv => kv.1 == k) with
    | none =>
      have hbl : jsLookup b k = none := by
        show (b.find? _).map _ = none
        rw [hb]
        rfl
      have hfn : spreadMapFn b kv0 = kv0 := by
        unfold spreadMapFn
        rw [hk0, hbl]
      rw [hbl]
      show some ((spreadMapFn b kv0).2) = some kv0.2
      rw [hfn]
    | some kvb =>
      have hbl : jsLookup b k = some kvb.2 := by
        show (b.find? _).map _ = _
        rw [hb]
        rfl
      have hfn : spreadMapFn b kv0 = (kv0.1, kvb.2) := by
        unfold spreadMapFn
        rw [hk0, hbl]
      rw [hbl]
      show some ((spreadMapFn b kv0).2) = some kvb.2
      rw [hfn]

/-- Claim C4: the settings phase shallow-merges the payload over the
current settings — looking up any key in the merge yields the payload's
binding when present and the current one otherwise — the documented
`{a:1,b:2} + {b:3,c:4} = {a:1,b:3,c:4}` example holds, and a parse failure
of the current settings degrades to an empty current map: the run still
writes `objectSpread [] payload` and marks the settings item Success. -/
theorem c4_settings_merge :
    (∀ a b k, jsLookup (objectSpread a b) k =
      (jsLookup b k).or (jsLookup a k)) ∧
    objectSpread [("a", JVal.num 1), ("b", JVal.num 2)]
        [("b", JVal.num 3), ("c", JVal.num 4)] =
      [("a", JVal.num 1), ("b", JVal.num 3), ("c", JVal.num 4)] ∧
    (∀ payload,
      (installSelectedCommand envParseFail
        (addSettingsItem [] payload)).written =
          some (objectSpread [] payload) ∧
      (installSelectedCommand envParseFail
        (addSettingsItem [] payload)).coll.map (fun e => e.status) =
          [ExtensionStatus.success]) := by
  refine ⟨spread_lookup, rfl, fun payload => ⟨rfl, rfl⟩⟩

/-! ### Claim C1 -/

/-- Counterexample for claim C1: in the documented three-item run the final
statuses are indeed `[Success, AlreadyInstalled, Failed]`, but the run's
summary is exactly the literal completion message, which reports only the
installed count and the settings flag — it contains no report of an
already-installed or failed count (no occurrence of "ailed"/"lready"),
even though the internal error counter is 1. -/
theorem c1_installer_run_counterexample :
    runC1.coll.map (fun e => e.status) =
      [ExtensionStatus.success, ExtensionStatus.alreadyInstalled,
        ExtensionStatus.failed] ∧
    runC1.summary =
      some "Process complete. Installed: 1 extensions. Settings applied: No." ∧
    strIncludes
      "Process complete. Installed: 1 extensions. Settings applied: No."
      "ailed" = false ∧
    strIncludes
      "Process complete. Installed: 1 extensions. Settings applied: No."
      "lready" = false ∧
    runC1.errorCount = 1 :=
  ⟨rfl, rfl, by decide, by decide, rfl⟩

/-- Claim C1 (amended): the three final statuses are
`[Success, AlreadyInstalled, Failed]`; the summary reports `installed = 1`
and whether settings were applied; the failed count (1) is only an internal
counter and neither it nor an already-installed count appears in the
summary. -/
theorem c1_installer_run_amended :
    runC1.coll.map (fun e => e.status) =
      [ExtensionStatus.success, ExtensionStatus.alreadyInstalled,
        ExtensionStatus.failed] ∧
    runC1.installedCount = 1 ∧
    runC1.errorCount = 1 ∧
    runC1.summary =
      some "Process complete. Installed: 1 extensions. Settings applied: No." :=
  ⟨rfl, rfl, rfl, rfl⟩

/-! ### Claim C2, concrete counterexample -/

/-- Counterexample for claim C2: in the five-item run cancelled before the
third step, items 1-2 are terminal and items 3-5 remain Pending as the
claim says, but the run's summary is the ordinary completion message with
no cancellation marker (no occurrence of "ancel"); the cancellation notice
goes only to the output log. -/
theorem c2_cancellation_counterexample :
    runC2.coll.map (fun e => e.status) =
      [ExtensionStatus.success, ExtensionStatus.success,
        ExtensionStatus.pending, ExtensionStatus.pending,
        ExtensionStatus.pending] ∧
    runC2.cancelChecks = 3 ∧
    runC2.summary =
      some "Process complete. Installed: 2 extensions. Settings applied: No." ∧
    strIncludes
      "Process complete. Installed: 2 extensions. Settings applied: No."
      "ancel" = false ∧
    runC2.log.getLast? = some "Operation cancelled." :=
  ⟨rfl, rfl, rfl, by decide, rfl⟩

/-! ### Claim C8 -/

/-- Counterexample for claim C8: the parsed value `5` is neither a bare
list nor the full object shape, yet the load does not abort — it reports
success ("Loaded 0 extensions.") and replaces the nonempty prior collection
with the empty one. -/
theorem c8_load_format_error_counterexample :
    (loadFileCommand priorColl (JVal.num 5)).2 = "Loaded 0 extensions." ∧
    (loadFileCommand priorColl (JVal.num 5)).1 = [] ∧
    priorColl ≠ [] :=
  ⟨rfl, rfl, fun h => List.noConfusion h⟩

/-- Claim C8 (amended): a parsed `null`, or a parsed object whose
`extensions` property is truthy and not an array, aborts the load with a
surfaced message and leaves the collection unchanged; any other value that
matches neither accepted shape is not treated as a format error — it loads
an empty extension list in place of the prior collection. -/
theorem c8_load_format_error_amended (coll : List ExtensionItem)
    (fields : List (String × JVal)) (v : JVal)
    (hv : jsLookup fields "extensions" = some v)
    (htr : jsTruthy (some v) = true)
    (harr : ∀ xs, v ≠ JVal.arr xs) :
    loadFileCommand coll (JVal.obj fields) =
      (coll, "Error loading file: Invalid extensions file format") ∧
    loadFileCommand coll JVal.null = (coll, "Error loading file: TypeError") := by
  constructor
  · have hor : jsOr (jsLookup fields "extensions") (JVal.arr []) = v := by
      rw [hv, jsOr, if_pos htr]
    cases v with
    | arr xs => exact absurd rfl (harr xs)
    | null => simp [jsTruthy] at htr
    | bool b => simp [loadFileCommand, loadFileParse, hor]
    | num n => simp [loadFileCommand, loadFileParse, hor]
    | str s => simp [loadFileCommand, loadFileParse, hor]
    | obj fs => simp [loadFileCommand, loadFileParse, hor]
  · rfl

/-- Witness for claim C8 (amended): a concrete object whose `extensions`
field is the number `1`. -/
theorem c8_load_format_error_witness :
    loadFileCommand priorColl (JVal.obj [("extensions", JVal.num 1)]) =
      (priorColl, "Error loading file: Invalid extensions file format") ∧
    loadFileCommand priorColl JVal.null =
      (priorColl, "Error loading file: TypeError") :=
  c8_load_format_error_amended priorColl [("extensions", JVal.num 1)]
    (JVal.num 1) rfl (by decide) (fun xs h => JVal.noConfusion h)

/-! ### Claim C5 -/

/-- Counterexample for claim C5: loading raw descriptors that carry the
reserved settings identifier twice is a reachable collection state in which
two items hold the reserved id, the second one at index 1 — the stated
invariant fails. -/
theorem c5_settings_invariant_counterexample :
    Reachable badColl ∧ ¬SettingsInvariant badColl := by
  constructor
  · exact Reachable.load [] [settingsClash, settingsClash] Reachable.empty
  · intro h
    exact absurd (h 1 rfl) one_ne_zero

theorem loadExtensions_map_id (prev : List ExtensionItem)
    (datas : List ExtensionData) :
    (loadExtensions prev datas).map (fun e => e.id) =
      datas.map (fun d => d.id) := by
  simp only [loadExtensions, List.map_map]
  rfl

theorem selectAll_map_id (coll : List ExtensionItem) :
    (selectAll coll).map (fun e => e.id) = coll.map (fun e => e.id) := by
  simp only [selectAll, List.map_map]
  rfl

theorem deselectAll_map_id (coll : List ExtensionItem) :
    (deselectAll coll).map (fun e => e.id) = coll.map (fun e => e.id) := by
  simp only [deselectAll, List.map_map]
  rfl

theorem modifyAt_map_id (coll : List ExtensionItem) (n : Nat)
    (f : ExtensionItem → ExtensionItem) (hf : ∀ e, (f e).id = e.id) :
    (modifyAt coll n f).map (fun e => e.id) = coll.map (fun e => e.id) := by
  induction coll generalizing n with
  | nil => rfl
  | cons e rest ih =>
    cases n with
    | zero => simp [modifyAt, hf]
    | succ m => simp [modifyAt, ih]

theorem handleCheckboxChange_map_id (coll : List ExtensionItem) (n : Nat)
    (state : CheckboxState) :
    (handleCheckboxChange coll n state).map (fun e => e.id) =
      coll.map (fun e => e.id) :=
  modifyAt_map_id coll n _ (fun _ => rfl)

theorem settingsInvariant_of_map_id_eq {st st' : List ExtensionItem}
    (h : st'.map (fun e => e.id) = st.map (fun e => e.id)) :
    SettingsInvariant st → SettingsInvariant st' := by
  intro hs i hi
  exact hs i (h ▸ hi)

theorem settingsInvariant_load (st : List ExtensionItem)
    (datas : List ExtensionData) (hns : ∀ d ∈ datas, d.id ≠ "settings") :
    SettingsInvariant (loadExtensions st datas) := by
  intro i hi
  rw [loadExtensions_map_id] at hi
  obtain ⟨d, hd, hid⟩ := List.mem_map.mp (List.get?_mem hi)
  exact (hns d hd hid).elim

theorem settingsInvariant_add (coll : List ExtensionItem)
    (payload : List (String × JVal)) :
    SettingsInvariant (addSettingsItem coll payload) := by
  intro i hi
  cases i with
  | zero => rfl
  | succ n =>
    rw [show (addSettingsItem coll payload).map (fun e => e.id) =
        "settings" :: (coll.filter (fun e => e.id != "settings")).map
          (fun e => e.id) from rfl, List.get?_cons_succ] at hi
    obtain ⟨e, he, hid⟩ := List.mem_map.mp (List.get?_mem hi)
    have hp := List.of_mem_filter he
    rw [hid] at hp
    exact absurd hp (by decide)

theorem addSettingsItem_twice (coll : List ExtensionItem)
    (p1 p2 : List (String × JVal)) :
    addSettingsItem (addSettingsItem coll p1) p2 =
      ExtensionItem.create settingsDescriptor (some p2) ::
        coll.filter (fun e => e.id != "settings") := by
  have h2 : (coll.filter (fun e => e.id != "settings")).filter
      (fun e => e.id != "settings") =
      coll.filter (fun e => e.id != "settings") := by
    rw [List.filter_filter]
    simp only [Bool.and_self]
  show ExtensionItem.create settingsDescriptor (some p2) ::
      (coll.filter (fun e => e.id != "settings")).filter
        (fun e => e.id != "settings") = _
  rw [h2]

/-- Claim C5 (amended): provided `loadAll` is never fed a raw descriptor
carrying the reserved settings identifier, every reachable collection state
keeps any settings item at index 0 (hence at most one); and a second
`addSettingsItem` replaces rather than duplicates: the result is exactly
one settings item, at index 0, with the latest payload, in front of the
non-settings items in their original order. -/
theorem c5_settings_invariant_amended :
    (∀ st, ReachableNoRes st → SettingsInvariant st) ∧
    (∀ coll p1 p2,
      addSettingsItem (addSettingsItem coll p1) p2 =
        ExtensionItem.create settingsDescriptor (some p2) ::
          coll.filter (fun e => e.id != "settings")) ∧
    (∀ coll p1 p2,
      (addSettingsItem (addSettingsItem coll p1) p2).filter
          (fun e => e.id == "settings") =
        [ExtensionItem.create settingsDescriptor (some p2)]) := by
  refine ⟨?_, addSettingsItem_twice, ?_⟩
  · intro st h
    induction h with
    | empty => intro i hi; simp at hi
    | load st datas hns _ _ => exact settingsInvariant_load st datas hns
    | settings st payload _ _ => exact settingsInvariant_add st payload
    | selAll st _ ih =>
      exact settingsInvariant_of_map_id_eq (selectAll_map_id st) ih
    | deselAll st _ ih =>
      exact settingsInvariant_of_map_id_eq (deselectAll_map_id st) ih
    | checkbox st i state _ ih =>
      exact settingsInvariant_of_map_id_eq
        (handleCheckboxChange_map_id st i state) ih
    | status st id s m _ ih =>
      exact settingsInvariant_of_map_id_eq (upd_map_id st id s m) ih
  · intro coll p1 p2
    rw [addSettingsItem_twice]
    show ExtensionItem.create settingsDescriptor (some p2) ::
        (coll.filter (fun e => e.id != "settings")).filter
          (fun e => e.id == "settings") = _
    rw [List.filter_filter]
    have : ∀ e : ExtensionItem,
        ((e.id == "settings") && (e.id != "settings")) = false := by
      intro e
      cases h : e.id == "settings" <;> simp [bne, h]
    simp only [this, List.filter_false]

/-- Witness for claim C5 (amended): the invariant at a concrete reachable
state. -/
theorem c5_settings_invariant_witness :
    SettingsInvariant (addSettingsItem [] []) :=
  c5_settings_invariant_amended.1 _
    (ReachableNoRes.settings [] [] ReachableNoRes.empty)

/-! ### Claim C10 -/

theorem updateCheckbox_inv (e : ExtensionItem) :
    (ExtensionItem.updateCheckbox e).checkboxState = CheckboxState.checked ↔
      (ExtensionItem.updateCheckbox e).selected = true := by
  unfold ExtensionItem.updateCheckbox
  cases hsel : e.selected <;> simp [hsel]

theorem modifyAt_mem (coll : List ExtensionItem) (n : Nat)
    (f : ExtensionItem → ExtensionItem) (x : ExtensionItem)
    (hx : x ∈ modifyAt coll n f) : x ∈ coll ∨ ∃ e ∈ coll, x = f e := by
  induction coll generalizing n with
  | nil => simp [modifyAt] at hx
  | cons e rest ih =>
    cases n with
    | zero =>
      rcases List.mem_cons.mp hx with h | h
      · exact Or.inr ⟨e, List.mem_cons_self e rest, h⟩
      · exact Or.inl (List.mem_cons_of_mem _ h)
    | succ m =>
      rcases List.mem_cons.mp hx with h | h
      · exact Or.inl (h ▸ List.mem_cons_self e rest)
      · rcases ih m h with h' | ⟨y, hy, hxy⟩
        · exact Or.inl (List.mem_cons_of_mem _ h')
        · exact Or.inr ⟨y, List.mem_cons_of_mem _ hy, hxy⟩

/-- Claim C10: in every reachable collection state every item's
`checkboxState` is Checked exactly when its `selected` flag is set, and
`updateExtensionStatus` leaves both `selected` and `checkboxState` of every
position untouched. -/
theorem c10_checkbox_invariant :
    (∀ st, Reachable st → CheckboxInvariant st) ∧
    (∀ coll id s m i (x : ExtensionItem), coll.get? i = some x →
      ∃ y, (updateExtensionStatus coll id s m).get? i = some y ∧
        y.selected = x.selected ∧ y.checkboxState = x.checkboxState) := by
  constructor
  · intro st h
    induction h with
    | empty => intro e he; simp at he
    | load st datas _ _ =>
      intro e he
      obtain ⟨d, _, hd⟩ := List.mem_map.mp he
      rw [← hd]
      exact updateCheckbox_inv _
    | settings st payload _ ih =>
      intro e he
      rcases List.mem_cons.mp he with h | h
      · rw [h]
        exact updateCheckbox_inv _
      · exact ih _ (List.mem_of_mem_filter h)
    | selAll st _ ih =>
      intro e he
      obtain ⟨x, _, hx⟩ := List.mem_map.mp he
      rw [← hx]
      exact updateCheckbox_inv _
    | deselAll st _ ih =>
      intro e he
      obtain ⟨x, _, hx⟩ := List.mem_map.mp he
      rw [← hx]
      exact updateCheckbox_inv _
    | checkbox st i state _ ih =>
      intro e he
      rcases modifyAt_mem st i _ e he with h | ⟨y, _, hey⟩
      · exact ih e h
      · rw [hey]
        exact updateCheckbox_inv _
    | status st id s m _ ih =>
      intro e he
      rcases upd_mem_cases st id s m e he with h | ⟨y, hy, hey⟩
      · exact ih e h
      · rw [hey]
        exact ih y hy
  · intro coll id s m i x hx
    rcases upd_get?_cases coll id s m i x hx with h | ⟨_, h⟩
    · exact ⟨x, h, rfl, rfl⟩
    · exact ⟨_, h, rfl, rfl⟩

/-- Witness for claim C10: the invariant at a concrete reachable state. -/
theorem c10_checkbox_invariant_witness :
    CheckboxInvariant (deselectAll (loadExtensions [] [exData1])) :=
  c10_checkbox_invariant.1 _
    (Reachable.deselAll _ (Reachable.load [] [exData1] Reachable.empty))

/-! ### Lemmas about the installer loop -/

theorem installStep_coll (env : InstallEnv) (st : RunState)
    (ext : ExtensionItem) :
    (installStep env st ext).coll =
      updateExtensionStatus st.coll ext.extensionData.id
        (stepStatus env ext.extensionData.id)
        (stepErrMsg env ext.extensionData.id) := by
  by_cases h : env.isInstalled ext.extensionData.id = true
  · simp [installStep, stepStatus, stepErrMsg, h]
  · cases hres : env.install ext.extensionData.id with
    | ok => simp [installStep, stepStatus, stepErrMsg, h, hres, upd_upd]
    | err msg => simp [installStep, stepStatus, stepErrMsg, h, hres, upd_upd]

theorem installStep_cancelChecks (env : InstallEnv) (st : RunState)
    (ext : ExtensionItem) :
    (installStep env st ext).cancelChecks = st.cancelChecks := by
  by_cases h : env.isInstalled ext.extensionData.id = true
  · simp [installStep, h]
  · cases hres : env.install ext.extensionData.id <;>
      simp [installStep, h, hres]

theorem installStep_installCalls (env : InstallEnv) (st : RunState)
    (ext : ExtensionItem) :
    (installStep env st ext).installCalls =
      st.installCalls ++
        (if env.isInstalled ext.extensionData.id then []
         else [ext.extensionData.id]) := by
  by_cases h : env.isInstalled ext.extensionData.id = true
  · simp [installStep, h]
  · cases hres : env.install ext.extensionData.id <;>
      simp [installStep, h, hres]

theorem installStep_summary (env : InstallEnv) (st : RunState)
    (ext : ExtensionItem) :
    (installStep env st ext).summary = st.summary := by
  by_cases h : env.isInstalled ext.extensionData.id = true
  · simp [installStep, h]
  · cases hres : env.install ext.extensionData.id <;>
      simp [installStep, h, hres]

theorem foldSteps_coll (env : InstallEnv) (pre : List ExtensionItem) :
    ∀ (j : Nat) (st : RunState),
    (foldSteps env j st pre).coll = applyEnvUpdates env st.coll pre := by
  induction pre with
  | nil => intro j st; rfl
  | cons e rest ih =>
    intro j st
    show (foldSteps env (j + 1)
      (installStep env { st with cancelChecks := st.cancelChecks + 1 } e)
      rest).coll = _
    rw [ih, installStep_coll]
    rfl

theorem foldSteps_cancelChecks (env : InstallEnv) (pre : List ExtensionItem) :
    ∀ (j : Nat) (st : RunState),
    (foldSteps env j st pre).cancelChecks = st.cancelChecks + pre.length := by
  induction pre with
  | nil => intro j st; rfl
  | cons e rest ih =>
    intro j st
    show (foldSteps env (j + 1)
      (installStep env { st with cancelChecks := st.cancelChecks + 1 } e)
      rest).cancelChecks = _
    rw [ih, installStep_cancelChecks]
    show st.cancelChecks + 1 + rest.length = st.cancelChecks + (e :: rest).length
    simp [List.length_cons]
    omega

theorem foldSteps_installCalls (env : InstallEnv) (pre : List ExtensionItem) :
    ∀ (j : Nat) (st : RunState) (x : String),
    x ∈ (foldSteps env j st pre).installCalls →
    x ∈ st.installCalls ∨ x ∈ pre.map (fun e => e.extensionData.id) := by
  induction pre with
  | nil => intro j st x hx; exact Or.inl hx
  | cons e rest ih =>
    intro j st x hx
    rcases ih (j + 1) _ x hx with h | h
    · rw [installStep_installCalls] at h
      rcases List.mem_append.mp h with h' | h'
      · exact Or.inl h'
      · right
        by_cases hi : env.isInstalled e.extensionData.id = true
        · rw [if_pos hi] at h'
          simp at h'
        · rw [if_neg hi] at h'
          rw [List.mem_singleton] at h'
          exact h' ▸ List.mem_cons_self _ _
    · exact Or.inr (List.mem_cons_of_mem _ h)

theorem foldSteps_summary (env : InstallEnv) (pre : List ExtensionItem) :
    ∀ (j : Nat) (st : RunState),
    (foldSteps env j st pre).summary = st.summary := by
  induction pre with
  | nil => intro j st; rfl
  | cons e rest ih =>
    intro j st
    show (foldSteps env (j + 1)
      (installStep env { st with cancelChecks := st.cancelChecks + 1 } e)
      rest).summary = _
    rw [ih, installStep_summary]

theorem applyEnvUpdates_map_id (env : InstallEnv)
    (pres : List ExtensionItem) :
    ∀ coll, (applyEnvUpdates env coll pres).map (fun e => e.id) =
      coll.map (fun e => e.id) := by
  induction pres with
  | nil => intro coll; rfl
  | cons e rest ih =>
    intro coll
    show (applyEnvUpdates env (updateExtensionStatus coll _ _ _) rest).map _ = _
    rw [ih, upd_map_id]

theorem applyEnvUpdates_get?_not_mem (env : InstallEnv)
    (pres : List ExtensionItem) :
    ∀ (coll : List ExtensionItem) (i : Nat) (x : ExtensionItem),
    coll.get? i = some x →
    x.id ∉ pres.map (fun e => e.extensionData.id) →
    (applyEnvUpdates env coll pres).get? i = some x := by
  induction pres with
  | nil => intro coll i x hx _; exact hx
  | cons e rest ih =>
    intro coll i x hx hn
    simp only [List.map_cons, List.mem_cons, not_or] at hn
    obtain ⟨hn1, hn2⟩ := hn
    exact ih _ i x (upd_get?_ne coll _ _ _ i x hx hn1) hn2

theorem applyEnvUpdates_get?_mem (env : InstallEnv)
    (pres : List ExtensionItem) :
    ∀ (coll : List ExtensionItem) (i : Nat) (x : ExtensionItem),
    (coll.map (fun e => e.id)).Nodup →
    (pres.map (fun e => e.extensionData.id)).Nodup →
    coll.get? i = some x →
    x.id ∈ pres.map (fun e => e.extensionData.id) →
    (applyEnvUpdates env coll pres).get? i =
      some { x with status := stepStatus env x.id,
                    errorMessage := stepErrMsg env x.id } := by
  induction pres with
  | nil => intro coll i x _ _ _ hmem; simp at hmem
  | cons e rest ih =>
    intro coll i x hnd hprnd hx hmem
    simp only [List.map_cons, List.nodup_cons] at hprnd
    obtain ⟨hhead, hprnd'⟩ := hprnd
    simp only [List.map_cons, List.mem_cons] at hmem
    rcases hmem with hxe | hxrest
    · have hupd := upd_get?_eq coll e.extensionData.id
        (stepStatus env e.extensionData.id)
        (stepErrMsg env e.extensionData.id) i x hnd hx hxe
      have hxnot : ({ x with
          status := stepStatus env e.extensionData.id,
          errorMessage := stepErrMsg env e.extensionData.id } :
            ExtensionItem).id ∉
          rest.map (fun e => e.extensionData.id) := by
        show x.id ∉ _
        rw [hxe]
        exact hhead
      have hres := applyEnvUpdates_get?_not_mem env rest _ i _ hupd hxnot
      show (applyEnvUpdates env (updateExtensionStatus coll _ _ _)
        rest).get? i = _
      rw [hres, hxe]
    · have hne : x.id ≠ e.extensionData.id := fun h => hhead (h ▸ hxrest)
      have hupd := upd_get?_ne coll e.extensionData.id
        (stepStatus env e.extensionData.id)
        (stepErrMsg env e.extensionData.id) i x hx hne
      have hnd1 : ((updateExtensionStatus coll e.extensionData.id
          (stepStatus env e.extensionData.id)
          (stepErrMsg env e.extensionData.id)).map
            (fun e => e.id)).Nodup := by
        rw [upd_map_id]
        exact hnd
      exact ih _ i x hnd1 hprnd' hupd hxrest

theorem installLoop_cons_cancelled (env : InstallEnv) (e : ExtensionItem)
    (rest : List ExtensionItem) (i : Nat) (st : RunState)
    (h : env.cancelled i = true) :
    installLoop env (e :: rest) i st =
      { st with cancelChecks := st.cancelChecks + 1,
                log := st.log ++ ["Operation cancelled."] } := by
  simp only [installLoop, h, if_true]

theorem installLoop_cons_active (env : InstallEnv) (e : ExtensionItem)
    (rest : List ExtensionItem) (i : Nat) (st : RunState)
    (h : env.cancelled i = false) :
    installLoop env (e :: rest) i st =
      installLoop env rest (i + 1)
        (installStep env { st with cancelChecks := st.cancelChecks + 1 } e) := by
  simp only [installLoop, h, Bool.false_eq_true, if_false]

theorem installLoop_split (env : InstallEnv) (pre : List ExtensionItem) :
    ∀ (post : List ExtensionItem) (j : Nat) (st : RunState),
    post ≠ [] →
    (∀ t, t < pre.length → env.cancelled (j + t) = false) →
    env.cancelled (j + pre.length) = true →
    installLoop env (pre ++ post) j st =
      { foldSteps env j st pre with
        cancelChecks := (foldSteps env j st pre).cancelChecks + 1,
        log := (foldSteps env j st pre).log ++ ["Operation cancelled."] } := by
  induction pre with
  | nil =>
    intro post j st hpost hc hck
    cases post with
    | nil => exact absurd rfl hpost
    | cons p ps =>
      have hcj : env.cancelled j = true := by simpa using hck
      exact installLoop_cons_cancelled env p ps j st hcj
  | cons e rest ih =>
    intro post j st hpost hc hck
    have hcj : env.cancelled j = false := by
      simpa using hc 0 (Nat.succ_pos _)
    show installLoop env (e :: (rest ++ post)) j st = _
    rw [installLoop_cons_active env e (rest ++ post) j st hcj]
    rw [ih post (j + 1) _ hpost
      (fun t ht => by
        rw [show j + 1 + t = j + (t + 1) from by omega]
        exact hc (t + 1) (by simpa using Nat.succ_lt_succ ht))
      (by
        rw [show j + 1 + rest.length = j + (e :: rest).length from by
          simp [List.length_cons]; omega]
        exact hck)]
    rfl

theorem installLoop_no_cancel (env : InstallEnv)
    (items : List ExtensionItem) :
    ∀ (j : Nat) (st : RunState),
    (∀ i, env.cancelled i = false) →
    installLoop env items j st = foldSteps env j st items := by
  induction items with
  | nil => intro j st _; rfl
  | cons e rest ih =>
    intro j st hnc
    rw [installLoop_cons_active env e rest j st (hnc j)]
    exact ih (j + 1) _ hnc

theorem stepStatus_terminal (env : InstallEnv) (id : String) :
    isTerminal (stepStatus env id) := by
  unfold stepStatus isTerminal
  split
  · exact Or.inr (Or.inr rfl)
  · split
    · exact Or.inl rfl
    · exact Or.inr (Or.inl rfl)

theorem not_mem_take_of_get?_ge {l : List String} {n i : Nat} {a : String}
    (hnd : l.Nodup) (hi : l.get? i = some a) (hni : n ≤ i) :
    a ∉ l.take n := by
  intro hmem
  obtain ⟨j, hj⟩ := List.mem_iff_get?.mp hmem
  have hjn : j < n := by
    by_contra hcon
    rw [List.get?_take_eq_none (Nat.le_of_not_lt hcon)] at hj
    exact Option.noConfusion hj
  rw [List.get?_take hjn] at hj
  have hilen : i < l.length := by
    rcases List.get?_eq_some.mp hi with ⟨h, _⟩
    exact h
  have hij : i = j := by
    apply List.getElem?_inj hilen hnd
    rw [← List.get?_eq_getElem?, ← List.get?_eq_getElem?, hi, hj]
  omega

theorem loadExtensions_all_selected (datas : List ExtensionData) :
    getSelectedExtensions (loadExtensions [] datas) =
      loadExtensions [] datas := by
  refine List.filter_eq_self.mpr ?_
  intro e he
  obtain ⟨d, _, hd⟩ := List.mem_map.mp he
  rw [← hd]
  rfl

theorem loadExtensions_find?_settings (datas : List ExtensionData)
    (hns : ∀ d ∈ datas, d.id ≠ "settings") :
    (loadExtensions [] datas).find? (fun item => item.id == "settings") =
      none := by
  refine List.find?_eq_none.mpr ?_
  intro x hx
  obtain ⟨d, hd, hxd⟩ := List.mem_map.mp hx
  rw [← hxd]
  simpa using hns d hd

theorem loadExtensions_filter_not_settings (datas : List ExtensionData)
    (hns : ∀ d ∈ datas, d.id ≠ "settings") :
    (loadExtensions [] datas).filter (fun item => item.id != "settings") =
      loadExtensions [] datas := by
  refine List.filter_eq_self.mpr ?_
  intro e he
  obtain ⟨d, hd, hxd⟩ := List.mem_map.mp he
  rw [← hxd]
  simpa using hns d hd

theorem installSelectedCommand_plain (env : InstallEnv)
    (datas : List ExtensionData)
    (hns : ∀ d ∈ datas, d.id ≠ "settings") (hne : datas ≠ []) :
    installSelectedCommand env (loadExtensions [] datas) =
      { installLoop env (loadExtensions [] datas) 0
          { coll := loadExtensions [] datas,
            log := ["Starting installation..."] } with
        summary := some (summaryMessage
          (installLoop env (loadExtensions [] datas) 0
            { coll := loadExtensions [] datas,
              log := ["Starting installation..."] }).installedCount false) } := by
  have hIsEmpty : (loadExtensions [] datas).isEmpty = false := by
    rw [List.isEmpty_eq_false]
    intro h
    cases datas with
    | nil => exact hne rfl
    | cons d ds => simp [loadExtensions] at h
  simp only [installSelectedCommand, loadExtensions_all_selected, hIsEmpty,
    Bool.false_eq_true, if_false, loadExtensions_find?_settings datas hns,
    loadExtensions_filter_not_settings datas hns, Option.isSome_none,
    settingsPhase]

/-- Claim C2 (amended): when cancellation is first reported at the check
before step `k` of `N` (all items fresh extension items with distinct ids),
the flag is consulted exactly `k` times — once before each entered step and
never mid-step — items `1..k-1` carry their terminal outcome, items `k..N`
still carry Pending, no external install is invoked for items `k..N`, and
the cancellation notice goes to the output log while the final summary is
the ordinary completion message with no cancelled marker. -/
theorem c2_cancellation_amended (datas : List ExtensionData)
    (env : InstallEnv) (k : Nat)
    (hnd : (datas.map (fun d => d.id)).Nodup)
    (hns : ∀ d ∈ datas, d.id ≠ "settings")
    (hk1 : 1 ≤ k) (hkN : k ≤ datas.length)
    (hbefore : ∀ i, i < k - 1 → env.cancelled i = false)
    (hat : env.cancelled (k - 1) = true) :
    (installSelectedCommand env (loadExtensions [] datas)).cancelChecks = k ∧
    (∀ i d, datas.get? i = some d → i < k - 1 →
      (installSelectedCommand env (loadExtensions [] datas)).coll.get? i =
        some { ExtensionItem.create d none with
                 status := stepStatus env d.id,
                 errorMessage := stepErrMsg env d.id } ∧
      isTerminal (stepStatus env d.id)) ∧
    (∀ i d, datas.get? i = some d → k - 1 ≤ i →
      (installSelectedCommand env (loadExtensions [] datas)).coll.get? i =
        some (ExtensionItem.create d none)) ∧
    (∀ i d, datas.get? i = some d → k - 1 ≤ i →
      d.id ∉ (installSelectedCommand env (loadExtensions [] datas)).installCalls) ∧
    "Operation cancelled." ∈
      (installSelectedCommand env (loadExtensions [] datas)).log ∧
    (installSelectedCommand env (loadExtensions [] datas)).summary =
      some (summaryMessage
        (installSelectedCommand env
          (loadExtensions [] datas)).installedCount false) := by
  have hne : datas ≠ [] := by
    intro h
    rw [h] at hkN
    simp at hkN
    omega
  rw [installSelectedCommand_plain env datas hns hne]
  have hlenfull : (loadExtensions [] datas).length = datas.length := by
    simp [loadExtensions]
  have hpre_len : ((loadExtensions [] datas).take (k - 1)).length = k - 1 := by
    rw [List.length_take, hlenfull, Nat.min_eq_left (by omega)]
  have hpost : (loadExtensions [] datas).drop (k - 1) ≠ [] := by
    intro h
    have hlen := congrArg List.length h
    rw [List.length_drop, hlenfull] at hlen
    simp at hlen
    omega
  have hsplit := installLoop_split env
    ((loadExtensions [] datas).take (k - 1))
    ((loadExtensions [] datas).drop (k - 1)) 0
    { coll := loadExtensions [] datas, log := ["Starting installation..."] }
    hpost
    (fun t ht => by
      rw [hpre_len] at ht
      simpa using hbefore t ht)
    (by rw [hpre_len]; simpa using hat)
  rw [List.take_append_drop] at hsplit
  rw [hsplit]
  have hkeys : ((loadExtensions [] datas).take (k - 1)).map
      (fun e => e.extensionData.id) =
      (datas.map (fun d => d.id)).take (k - 1) := by
    simp only [loadExtensions, List.map_take, List.map_map]
    rfl
  have hkeysnd : (((loadExtensions [] datas).take (k - 1)).map
      (fun e => e.extensionData.id)).Nodup := by
    rw [hkeys]
    exact List.Nodup.sublist (List.take_sublist _ _) hnd
  have hcollnd : ((loadExtensions [] datas).map (fun e => e.id)).Nodup := by
    rw [loadExtensions_map_id]
    exact hnd
  have hfullget : ∀ i d, datas.get? i = some d →
      (loadExtensions [] datas).get? i =
        some (ExtensionItem.create d none) := by
    intro i d hd
    show (datas.map (fun d => ExtensionItem.create d none)).get? i = _
    rw [List.get?_map, hd]
    rfl
  have hidget : ∀ i d, datas.get? i = some d →
      (datas.map (fun d => d.id)).get? i = some d.id := by
    intro i d hd
    rw [List.get?_map, hd]
    rfl
  have hmemtake : ∀ i d, datas.get? i = some d → i < k - 1 →
      d.id ∈ ((loadExtensions [] datas).take (k - 1)).map
        (fun e => e.extensionData.id) := by
    intro i d hd hik
    rw [hkeys]
    exact List.get?_mem (by rw [List.get?_take hik]; exact hidget i d hd)
  have hnotmem : ∀ i d, datas.get? i = some d → k - 1 ≤ i →
      d.id ∉ ((loadExtensions [] datas).take (k - 1)).map
        (fun e => e.extensionData.id) := by
    intro i d hd hik
    rw [hkeys]
    exact not_mem_take_of_get?_ge hnd (hidget i d hd) hik
  refine ⟨?_, ?_, ?_, ?_, ?_, ?_⟩
  · show (foldSteps env 0
      { coll := loadExtensions [] datas, log := ["Starting installation..."] }
      ((loadExtensions [] datas).take (k - 1))).cancelChecks + 1 = k
    rw [foldSteps_cancelChecks, hpre_len]
    show 0 + (k - 1) + 1 = k
    omega
  · intro i d hd hik
    refine ⟨?_, stepStatus_terminal env d.id⟩
    show (foldSteps env 0
      { coll := loadExtensions [] datas, log := ["Starting installation..."] }
      ((loadExtensions [] datas).take (k - 1))).coll.get? i = _
    rw [foldSteps_coll]
    exact applyEnvUpdates_get?_mem env _ _ i _ hcollnd hkeysnd
      (hfullget i d hd) (hmemtake i d hd hik)
  · intro i d hd hik
    show (foldSteps env 0
      { coll := loadExtensions [] datas, log := ["Starting installation..."] }
      ((loadExtensions [] datas).take (k - 1))).coll.get? i = _
    rw [foldSteps_coll]
    exact applyEnvUpdates_get?_not_mem env _ _ i _ (hfullget i d hd)
      (hnotmem i d hd hik)
  · intro i d hd hik hmem
    rcases foldSteps_installCalls env _ 0 _ d.id hmem with h | h
    · exact List.not_mem_nil _ h
    · exact hnotmem i d hd hik h
  · show "Operation cancelled." ∈ (foldSteps env 0
      { coll := loadExtensions [] datas, log := ["Starting installation..."] }
      ((loadExtensions [] datas).take (k - 1))).log ++ ["Operation cancelled."]
    exact List.mem_append.mpr (Or.inr (List.mem_singleton.mpr rfl))
  · rfl

/-- Witness for claim C2 (amended): the five-item run cancelled before its
third step. -/
theorem c2_cancellation_witness :
    (installSelectedCommand runEnvC2 (loadExtensions []
      [exData1, exData2, exData3, exData4, exData5])).cancelChecks = 3 ∧
    (installSelectedCommand runEnvC2 (loadExtensions []
      [exData1, exData2, exData3, exData4, exData5])).coll.get? 4 =
      some (ExtensionItem.create exData5 none) ∧
    "Operation cancelled." ∈ (installSelectedCommand runEnvC2
      (loadExtensions []
        [exData1, exData2, exData3, exData4, exData5])).log := by
  have h := c2_cancellation_amended
    [exData1, exData2, exData3, exData4, exData5] runEnvC2 3
    (by decide) (by decide) (by decide) (by decide)
    (fun i hi => decide_eq_false (by omega))
    (by decide)
  exact ⟨h.1, h.2.2.1 4 exData5 rfl (by decide), h.2.2.2.2.1⟩

/-! ### Claim C7 -/

theorem addSettingsItem_load (datas : List ExtensionData)
    (payload : List (String × JVal))
    (hns : ∀ d ∈ datas, d.id ≠ "settings") :
    addSettingsItem (loadExtensions [] datas) payload =
      ExtensionItem.create settingsDescriptor (some payload) ::
        loadExtensions [] datas := by
  unfold addSettingsItem
  rw [loadExtensions_filter_not_settings datas hns]

theorem addSettingsItem_isEmpty (coll : List ExtensionItem)
    (p : List (String × JVal)) : (addSettingsItem coll p).isEmpty = false :=
  rfl

theorem create_settingsData (d : ExtensionData)
    (s : Option (List (String × JVal))) :
    (ExtensionItem.create d s).settingsData = s :=
  rfl

theorem withSettings_all_selected (datas : List ExtensionData)
    (payload : List (String × JVal)) :
    getSelectedExtensions (addSettingsItem (loadExtensions [] datas) payload) =
      addSettingsItem (loadExtensions [] datas) payload := by
  refine List.filter_eq_self.mpr ?_
  intro e he
  rcases List.mem_cons.mp he with h | h
  · rw [h]
    rfl
  · obtain ⟨d, _, hd⟩ := List.mem_map.mp (List.mem_of_mem_filter h)
    rw [← hd]
    rfl

theorem withSettings_find? (datas : List ExtensionData)
    (payload : List (String × JVal))
    (hns : ∀ d ∈ datas, d.id ≠ "settings") :
    (addSettingsItem (loadExtensions [] datas) payload).find?
      (fun item => item.id == "settings") =
      some (ExtensionItem.create settingsDescriptor (some payload)) := by
  rw [addSettingsItem_load datas payload hns]
  exact List.find?_cons_of_pos _ rfl

theorem withSettings_filter (datas : List ExtensionData)
    (payload : List (String × JVal))
    (hns : ∀ d ∈ datas, d.id ≠ "settings") :
    (addSettingsItem (loadExtensions [] datas) payload).filter
      (fun item => item.id != "settings") = loadExtensions [] datas := by
  rw [addSettingsItem_load datas payload hns]
  rw [List.filter_cons_of_neg (fun h => Bool.noConfusion h)]
  exact loadExtensions_filter_not_settings datas hns

theorem installSelectedCommand_with_settings (env : InstallEnv)
    (datas : List ExtensionData) (payload : List (String × JVal))
    (wmsg : String)
    (hns : ∀ d ∈ datas, d.id ≠ "settings")
    (hw : env.writeResult = some wmsg) :
    ∃ lg : List String,
      installSelectedCommand env
          (addSettingsItem (loadExtensions [] datas) payload) =
        { installLoop env (loadExtensions [] datas) 0
            { coll := updateExtensionStatus
                (addSettingsItem (loadExtensions [] datas) payload)
                "settings" ExtensionStatus.failed (some wmsg),
              log := lg } with
          summary := some (summaryMessage
            (installLoop env (loadExtensions [] datas) 0
              { coll := updateExtensionStatus
                  (addSettingsItem (loadExtensions [] datas) payload)
                  "settings" ExtensionStatus.failed (some wmsg),
                log := lg }).installedCount true) } := by
  refine ⟨["Starting installation..."] ++
    (if env.settingsFileExists then
      match env.parseCurrent with
      | some s => (s, ([] : List String))
      | none =>
        (([] : List (String × JVal)),
          ["Warning: Could not parse current settings.json"])
     else (([] : List (String × JVal)), ([] : List String))).2 ++
    ["Failed to apply settings: " ++ wmsg], ?_⟩
  simp only [installSelectedCommand, withSettings_all_selected datas payload,
    addSettingsItem_isEmpty, Bool.false_eq_true, if_false,
    withSettings_find? datas payload hns,
    withSettings_filter datas payload hns, Option.isSome_some,
    settingsPhase, create_settingsData, hw]

/-- Claim C7: no single failure aborts the run.  With the settings write
failing, the settings item is marked Failed with the reported message and
the extension phase still runs: every extension item is processed to its
terminal outcome, and an item whose external operation fails ends Failed
with the reported error text attached while the loop continues past it. -/
theorem c7_failure_isolation (datas : List ExtensionData)
    (payload : List (String × JVal)) (env : InstallEnv) (wmsg : String)
    (hnd : (datas.map (fun d => d.id)).Nodup)
    (hns : ∀ d ∈ datas, d.id ≠ "settings")
    (hnc : ∀ i, env.cancelled i = false)
    (hw : env.writeResult = some wmsg) :
    (installSelectedCommand env
      (addSettingsItem (loadExtensions [] datas) payload)).coll.get? 0 =
      some { ExtensionItem.create settingsDescriptor (some payload) with
               status := ExtensionStatus.failed,
               errorMessage := some wmsg } ∧
    (∀ i d, datas.get? i = some d →
      (installSelectedCommand env
        (addSettingsItem (loadExtensions [] datas) payload)).coll.get?
          (i + 1) =
        some { ExtensionItem.create d none with
                 status := stepStatus env d.id,
                 errorMessage := stepErrMsg env d.id }) ∧
    (∀ id, isTerminal (stepStatus env id)) ∧
    (∀ id m, env.isInstalled id = false →
      env.install id = InstallResult.err m →
      stepStatus env id = ExtensionStatus.failed ∧
        stepErrMsg env id = some m) := by
  obtain ⟨lg, heq⟩ :=
    installSelectedCommand_with_settings env datas payload wmsg hns hw
  rw [heq, installLoop_no_cancel env (loadExtensions [] datas) 0 _ hnc]
  have hcollS : updateExtensionStatus
      (addSettingsItem (loadExtensions [] datas) payload) "settings"
      ExtensionStatus.failed (some wmsg) =
      { ExtensionItem.create settingsDescriptor (some payload) with
          status := ExtensionStatus.failed, errorMessage := some wmsg } ::
        loadExtensions [] datas := by
    rw [addSettingsItem_load datas payload hns]
    rfl
  have hkeysfull : (loadExtensions [] datas).map
      (fun e => e.extensionData.id) = datas.map (fun d => d.id) := by
    simp only [loadExtensions, List.map_map]
    rfl
  have hsetnotin : "settings" ∉ datas.map (fun d => d.id) := by
    intro hmem
    obtain ⟨d, hd, hid⟩ := List.mem_map.mp hmem
    exact hns d hd hid
  refine ⟨?_, ?_, fun id => stepStatus_terminal env id, ?_⟩
  · show (foldSteps env 0
      { coll := updateExtensionStatus
          (addSettingsItem (loadExtensions [] datas) payload)
          "settings" ExtensionStatus.failed (some wmsg),
        log := lg } (loadExtensions [] datas)).coll.get? 0 = _
    rw [foldSteps_coll]
    refine applyEnvUpdates_get?_not_mem env _ _ 0 _ ?_ ?_
    · rw [hcollS]
      rfl
    · show "settings" ∉ _
      rw [hkeysfull]
      exact hsetnotin
  · intro i d hd
    show (foldSteps env 0
      { coll := updateExtensionStatus
          (addSettingsItem (loadExtensions [] datas) payload)
          "settings" ExtensionStatus.failed (some wmsg),
        log := lg } (loadExtensions [] datas)).coll.get? (i + 1) = _
    rw [foldSteps_coll]
    have hget : (updateExtensionStatus
        (addSettingsItem (loadExtensions [] datas) payload) "settings"
        ExtensionStatus.failed (some wmsg)).get? (i + 1) =
        some (ExtensionItem.create d none) := by
      rw [hcollS, List.get?_cons_succ]
      show (datas.map (fun d => ExtensionItem.create d none)).get? i = _
      rw [List.get?_map, hd]
      rfl
    have hcollnd : ((updateExtensionStatus
        (addSettingsItem (loadExtensions [] datas) payload) "settings"
        ExtensionStatus.failed (some wmsg)).map (fun e => e.id)).Nodup := by
      rw [hcollS, List.map_cons, loadExtensions_map_id]
      exact List.nodup_cons.mpr ⟨hsetnotin, hnd⟩
    have hkeysnd : ((loadExtensions [] datas).map
        (fun e => e.extensionData.id)).Nodup := by
      rw [hkeysfull]
      exact hnd
    have hmem : (ExtensionItem.create d none).id ∈
        (loadExtensions [] datas).map (fun e => e.extensionData.id) := by
      rw [hkeysfull]
      exact List.get?_mem (by rw [List.get?_map, hd]; rfl)
    exact applyEnvUpdates_get?_mem env _ _ (i + 1) _ hcollnd hkeysnd
      hget hmem
  · intro id m h1 h2
    constructor
    · simp [stepStatus, h1, h2]
    · simp [stepErrMsg, h1, h2]

/-- Witness for claim C7: the two-item run with a failing settings write
and a failing first install. -/
theorem c7_failure_isolation_witness :
    (installSelectedCommand envWriteFail
      (addSettingsItem (loadExtensions [] [exData1, exData2])
        [("a", JVal.num 1)])).coll.get? 0 =
      some { ExtensionItem.create settingsDescriptor
               (some [("a", JVal.num 1)]) with
               status := ExtensionStatus.failed,
               errorMessage := some "EACCES" } ∧
    stepStatus envWriteFail "pub.ext1" = ExtensionStatus.failed ∧
    stepErrMsg envWriteFail "pub.ext1" = some "boom" := by
  have h := c7_failure_isolation [exData1, exData2] [("a", JVal.num 1)]
    envWriteFail "EACCES" (by decide) (by decide) (fun i => rfl) rfl
  exact ⟨h.1, (h.2.2.2 "pub.ext1" "boom" rfl rfl).1,
    (h.2.2.2 "pub.ext1" "boom" rfl rfl).2⟩

end ExtMgr

